import Mathlib

/-!
Verification development for the movie-agent fuzzy title matcher
(`tools_kaggle.py`): manual Levenshtein distance, hybrid fuzzy scoring,
the lazily-built in-memory movie cache, and the SQL-backed query tools.
Python strings are modelled as Lean `String`, floats as `ℚ`,
the SQLite store as an explicit `Store` value, and the module-level
cache globals as an explicit `CacheSt` threaded through the functions.
-/

set_option maxRecDepth 10000

namespace MovieAgent

/-- Python `s.lower()` (character-wise lowering). -/
def toLowerStr (s : String) : String := ⟨s.data.map Char.toLower⟩

/-- Python `s.strip()`: drop leading and trailing whitespace. -/
def trimStr (s : String) : String :=
  ⟨(((s.data.dropWhile Char.isWhitespace).reverse).dropWhile
    Char.isWhitespace).reverse⟩

/-- Normalization used throughout `tools_kaggle.py`:
`(text or "").strip().lower()`. -/
def normalize (s : String) : String := toLowerStr (trimStr s)

/-- Does `pat` occur at the very start of `hay`? -/
def listStarts : List Char → List Char → Bool
  | [], _ => true
  | _ :: _, [] => false
  | c :: cs, d :: ds => c = d && listStarts cs ds

/-- Does `pat` occur contiguously anywhere in `hay`? -/
def listContains (pat : List Char) : List Char → Bool
  | [] => pat.isEmpty
  | d :: ds => listStarts pat (d :: ds) || listContains pat ds

/-- Python `pat in hay`: contiguous-substring test. -/
def strIn (pat hay : String) : Bool := listContains pat.toList hay.toList

/-- Worker for `splitTokens`: `acc` holds the current token reversed. -/
def splitWS : List Char → List Char → List String
  | [], acc => if acc = [] then [] else [⟨acc.reverse⟩]
  | c :: cs, acc =>
      if c.isWhitespace then
        if acc = [] then splitWS cs []
        else (⟨acc.reverse⟩ : String) :: splitWS cs []
      else splitWS cs (c :: acc)

/-- Python `s.split()` (whitespace tokenisation, empty tokens dropped). -/
def splitTokens (s : String) : List String := splitWS s.data []

/-! ## Levenshtein distance

`lev` is the textbook head recursion; `levenshteinDP` embeds the
row-by-row dynamic program of `_levenshtein` (lines 60-81). -/

/-- Substitution cost: `0 if ca == cb else 1`. -/
def levCost (a b : Char) : Nat := if a = b then 0 else 1

/-- Reference recursive Levenshtein distance on character lists. -/
def lev : List Char → List Char → Nat
  | [], ys => ys.length
  | xs, [] => xs.length
  | ca :: xs, cb :: ys =>
      min (min (lev xs (cb :: ys) + 1) (lev (ca :: xs) ys + 1))
        (lev xs ys + levCost ca cb)
termination_by xs ys => xs.length + ys.length
decreasing_by all_goals simp_arith

theorem lev_nil_left (ys : List Char) : lev [] ys = ys.length := by
  cases ys <;> simp [lev]

theorem lev_nil_right (xs : List Char) : lev xs [] = xs.length := by
  cases xs <;> simp [lev]

theorem levCost_comm (a b : Char) : levCost a b = levCost b a := by
  simp [levCost, eq_comm]

theorem lev_self (xs : List Char) : lev xs xs = 0 := by
  induction xs with
  | nil => simp [lev]
  | cons c xs ih => simp [lev, levCost, ih]

theorem lev_comm (xs ys : List Char) : lev xs ys = lev ys xs := by
  induction xs, ys using lev.induct with
  | case1 ys => rw [lev_nil_left, lev_nil_right]
  | case2 xs h =>
      rw [lev_nil_right, lev_nil_left]
  | case3 ca xs cb ys ih1 ih2 ih3 =>
      rw [lev, lev, ih1, ih2, ih3, levCost_comm]
      rw [min_comm (lev (cb :: ys) xs + 1) (lev ys (ca :: xs) + 1)]

theorem lev_le_max (xs ys : List Char) : lev xs ys ≤ max xs.length ys.length := by
  induction xs, ys using lev.induct with
  | case1 ys => rw [lev_nil_left]; exact le_max_right _ _
  | case2 xs h => rw [lev_nil_right]; exact le_max_left _ _
  | case3 ca xs cb ys ih1 ih2 ih3 =>
      rw [lev]
      refine le_trans (min_le_right _ _) ?_
      have hc : levCost ca cb ≤ 1 := by
        simp only [levCost]; split <;> omega
      have : lev xs ys + levCost ca cb ≤ max xs.length ys.length + 1 := by omega
      refine le_trans this ?_
      simp only [List.length_cons]
      omega

/-- Levenshtein via reversed lists: recursion on the *last* characters,
which is what the prefix dynamic program of the source computes. -/
def levR (xs ys : List Char) : Nat := lev xs.reverse ys.reverse

theorem levR_nil_left (ys : List Char) : levR [] ys = ys.length := by
  simp [levR, lev_nil_left]

theorem levR_nil_right (xs : List Char) : levR xs [] = xs.length := by
  simp [levR, lev_nil_right]

theorem levR_self (xs : List Char) : levR xs xs = 0 := by
  simp [levR, lev_self]

theorem levR_comm (xs ys : List Char) : levR xs ys = levR ys xs := by
  simp [levR, lev_comm]

theorem levR_le_max (xs ys : List Char) :
    levR xs ys ≤ max xs.length ys.length := by
  simpa [levR] using lev_le_max xs.reverse ys.reverse

theorem levR_append (x y : Char) (xs ys : List Char) :
    levR (xs ++ [x]) (ys ++ [y]) =
      min (min (levR xs (ys ++ [y]) + 1) (levR (xs ++ [x]) ys + 1))
        (levR xs ys + levCost x y) := by
  simp only [levR, List.reverse_append, List.reverse_cons, List.reverse_nil,
    List.nil_append, List.singleton_append]
  rw [lev]

/-! ### The row dynamic program of `_levenshtein` -/

/-- Inner loop of `_levenshtein`: walks the remaining characters of `b`
together with the previous row (`prev_row[j-1]`, `prev_row[j]`, ...),
carrying the last appended value of the current row (`cur_row[j-1]`). -/
def nextRowGo (ca : Char) : List Char → List Nat → Nat → List Nat
  | cb :: ys, p0 :: p1 :: ps, last =>
      let v := min (min (last + 1) (p1 + 1)) (p0 + levCost ca cb)
      v :: nextRowGo ca ys (p1 :: ps) v
  | _, _, _ => []

/-- Outer loop of `_levenshtein`: one iteration per character of `a`,
row `i` starting with the boundary value `i`. -/
def levGo : List Char → List Char → List Nat → Nat → List Nat
  | [], _, prev, _ => prev
  | ca :: xs, ys, prev, i => levGo xs ys (i :: nextRowGo ca ys prev i) (i + 1)

/-- Embedding of `_levenshtein(a, b)` (lines 60-81 of `tools_kaggle.py`). -/
def levenshteinDP (a b : String) : Nat :=
  if a = b then 0
  else if a = "" then b.length
  else if b = "" then a.length
  else (levGo a.toList b.toList (List.range (b.length + 1)) 1).getLastD 0

/-- The tail of the specification row after the boundary cell:
cell `j` holds `levR p (pref ++ first j chars of the remaining b)`. -/
def specTail (p pref : List Char) : List Char → List Nat
  | [] => []
  | cb :: ys => levR p (pref ++ [cb]) :: specTail p (pref ++ [cb]) ys

/-- Specification row of the dynamic program: distances from `p` to all
prefixes of `pref ++ b` extending `pref`. -/
def specRow (p pref b : List Char) : List Nat := levR p pref :: specTail p pref b

theorem specRow_cons (p pref : List Char) (cb : Char) (ys : List Char) :
    specRow p pref (cb :: ys) = levR p pref :: specRow p (pref ++ [cb]) ys := rfl

theorem specRow_getLastD (p : List Char) :
    ∀ (b pref : List Char) (d : Nat),
      (specRow p pref b).getLastD d = levR p (pref ++ b) := by
  intro b
  induction b with
  | nil => intro pref d; simp [specRow, specTail]
  | cons cb ys ih =>
      intro pref d
      rw [specRow_cons, List.getLastD_cons, ih (pref ++ [cb]), List.append_assoc]
      rfl

theorem specRow_zero (b : List Char) :
    ∀ pref : List Char,
      specRow [] pref b = (List.range (b.length + 1)).map (pref.length + ·) := by
  induction b with
  | nil =>
      intro pref
      simp [specRow, specTail, levR_nil_left, List.range_succ]
  | cons cb ys ih =>
      intro pref
      rw [specRow_cons, ih (pref ++ [cb]), levR_nil_left]
      conv_rhs => rw [List.range_succ_eq_map]
      rw [List.map_cons, List.map_map]
      refine congrArg₂ List.cons (by omega) ?_
      simp only [List.length_append, List.length_cons, List.length_nil]
      apply List.map_congr_left
      intro j _
      simp only [Function.comp_apply]
      omega

theorem range_eq_specRow (b : List Char) :
    List.range (b.length + 1) = specRow [] [] b := by
  rw [specRow_zero b []]
  simp only [List.length_nil]
  have h : (fun j : Nat => 0 + j) = id := by funext j; simp
  rw [h, List.map_id]

theorem nextRowGo_spec (ca : Char) (p : List Char) :
    ∀ (b pref : List Char),
      nextRowGo ca b (specRow p pref b) (levR (p ++ [ca]) pref) =
        specTail (p ++ [ca]) pref b := by
  intro b
  induction b with
  | nil => intro pref; rfl
  | cons cb ys ih =>
      intro pref
      have hv : min (min (levR (p ++ [ca]) pref + 1) (levR p (pref ++ [cb]) + 1))
          (levR p pref + levCost ca cb) = levR (p ++ [ca]) (pref ++ [cb]) := by
        rw [levR_append]
        rw [min_comm (levR p (pref ++ [cb]) + 1) (levR (p ++ [ca]) pref + 1)]
      show (min (min (levR (p ++ [ca]) pref + 1) (levR p (pref ++ [cb]) + 1))
          (levR p pref + levCost ca cb)) ::
          nextRowGo ca ys (levR p (pref ++ [cb]) :: specTail p (pref ++ [cb]) ys)
            (min (min (levR (p ++ [ca]) pref + 1) (levR p (pref ++ [cb]) + 1))
              (levR p pref + levCost ca cb)) =
        specTail (p ++ [ca]) pref (cb :: ys)
      rw [hv]
      exact congrArg (List.cons _) (ih (pref ++ [cb]))

theorem levGo_spec (b : List Char) :
    ∀ (xs p : List Char),
      levGo xs b (specRow p [] b) (p.length + 1) = specRow (p ++ xs) [] b := by
  intro xs
  induction xs with
  | nil => intro p; simp [levGo]
  | cons ca xs ih =>
      intro p
      rw [levGo]
      have hlen : p.length + 1 = levR (p ++ [ca]) [] := by
        rw [levR_nil_right]; simp
      have hrow : (p.length + 1) :: nextRowGo ca b (specRow p [] b) (p.length + 1) =
          specRow (p ++ [ca]) [] b := by
        rw [hlen, nextRowGo_spec ca p b []]
        rfl
      rw [hrow]
      have hlen2 : p.length + 1 + 1 = (p ++ [ca]).length + 1 := by simp
      rw [hlen2, ih (p ++ [ca])]
      simp

theorem string_length_toList (s : String) : s.toList.length = s.length := rfl

theorem string_eq_of_toList_eq {a b : String} (h : a.toList = b.toList) :
    a = b := by
  cases a; cases b; simpa [String.toList] using congrArg String.mk h

theorem levenshteinDP_eq_levR (a b : String) :
    levenshteinDP a b = levR a.toList b.toList := by
  unfold levenshteinDP
  by_cases hab : a = b
  · subst hab; rw [if_pos rfl, levR_self]
  · rw [if_neg hab]
    by_cases ha : a = ""
    · subst ha
      rw [if_pos rfl]
      show b.length = levR [] b.toList
      rw [levR_nil_left, string_length_toList]
    · rw [if_neg ha]
      by_cases hb : b = ""
      · subst hb
        rw [if_pos rfl]
        show a.length = levR a.toList []
        rw [levR_nil_right, string_length_toList]
      · rw [if_neg hb]
        have : b.length + 1 = b.toList.length + 1 := by
          rw [string_length_toList]
        rw [this, range_eq_specRow b.toList]
        have := levGo_spec b.toList a.toList []
        simp only [List.length_nil, List.nil_append] at this
        rw [this]
        rw [specRow_getLastD]
        rfl

theorem levenshteinDP_self (a : String) : levenshteinDP a a = 0 := by
  rw [levenshteinDP_eq_levR, levR_self]

theorem levenshteinDP_comm (a b : String) :
    levenshteinDP a b = levenshteinDP b a := by
  rw [levenshteinDP_eq_levR, levenshteinDP_eq_levR, levR_comm]

theorem levenshteinDP_empty_left (a : String) :
    levenshteinDP "" a = a.length := by
  rw [levenshteinDP_eq_levR]
  show levR [] a.toList = a.length
  rw [levR_nil_left, string_length_toList]

theorem levenshteinDP_empty_right (a : String) :
    levenshteinDP a "" = a.length := by
  rw [levenshteinDP_eq_levR]
  show levR a.toList [] = a.length
  rw [levR_nil_right, string_length_toList]

theorem levenshteinDP_le_max (a b : String) :
    levenshteinDP a b ≤ max a.length b.length := by
  rw [levenshteinDP_eq_levR]
  have := levR_le_max a.toList b.toList
  simpa [string_length_toList] using this

/-! ## Data model

One row of the `movies` table (`NULL` text fields already collapsed to
`""`, as the `COALESCE`/`or ""` in the source does), and one entry of
the in-memory fuzzy-matching cache. -/

structure Row where
  title : String
  year : String
  genre : String
  rating : ℚ
  director : String
  star1 : String
  star2 : String
  star3 : String
  star4 : String
  overview : String
deriving DecidableEq

structure IndexEntry where
  title : String
  title_norm : String
  meta : String
deriving DecidableEq

/-- Python `" ".join(parts)`. -/
def joinSpace : List String → String
  | [] => ""
  | [x] => x
  | x :: xs => x ++ " " ++ joinSpace xs

/-- One cache record, as built in the row loop of `_load_movies_cache`
(lines 121-135): `meta_parts` drops empty fields of
genre/director/star1..star4, `combined_meta = (overview + " " + meta_text).lower()`. -/
def mkEntry (r : Row) : IndexEntry :=
  { title := r.title
    title_norm := normalize r.title
    meta := toLowerStr (r.overview ++ " " ++ joinSpace
      ([r.genre, r.director, r.star1, r.star2, r.star3, r.star4].filter
        (fun x => x ≠ ""))) }

def buildCache (rows : List Row) : List IndexEntry := rows.map mkEntry

/-- The module-level globals `_MOVIES_CACHE` / `_MOVIES_CACHE_LOADED`. -/
structure CacheSt where
  cache : List IndexEntry
  loaded : Bool
deriving DecidableEq

/-- The SQLite catalog as the load step observes it: database file
absent (`_get_connection()` returns `None`), present but the query
raises (e.g. the `movies` table is missing), or readable rows. -/
inductive Store where
  | absent : Store
  | failing : Store
  | avail : List Row → Store
deriving DecidableEq

/-- Embedding of `_load_movies_cache()` (lines 84-138). Returns the new
global state together with `some ()` when the call raises (the
`try/finally` has no `except`, so a query error propagates and leaves
both globals untouched). -/
def loadMoviesCache (st : CacheSt) (store : Store) : CacheSt × Option Unit :=
  if st.loaded then (st, none)
  else
    match store with
    | Store.absent => (⟨[], true⟩, none)
    | Store.failing => (st, some ())
    | Store.avail rows => (⟨buildCache rows, true⟩, none)

/-! ## Hybrid fuzzy score (`_fuzzy_score`, lines 141-173) -/

/-- `tokens_q = {tok for tok in q.split() if tok}` — a Python set. -/
def tokenSet (s : String) : Finset String := (splitTokens s).toFinset

/-- `overlap = len(tokens_q & tokens_t)`. -/
def overlapCount (q : String) (e : IndexEntry) : ℕ :=
  (tokenSet q ∩ tokenSet e.title_norm).card

/-- `meta_hits = sum(1 for tok in tokens_q if tok and tok in meta)`. -/
def metaHitsCount (q : String) (e : IndexEntry) : ℕ :=
  ((tokenSet q).filter (fun tok => strIn tok e.meta = true)).card

/-- Score before the final clamping (`base + token_bonus + meta_bonus`). -/
def rawScore (q : String) (e : IndexEntry) : ℚ :=
  let maxLen : ℚ := (max q.length e.title_norm.length : ℕ)
  let dist : ℚ := (levenshteinDP q e.title_norm : ℕ)
  let base : ℚ := 1 - dist / maxLen
  base + (1 / 10) * (overlapCount q e : ℕ) + (1 / 20) * (metaHitsCount q e : ℕ)

/-- Embedding of `_fuzzy_score(query_norm, item)`: zero when either the
query or the normalized title is empty, else the raw score clamped
below at `0.0` and above at `1.5` by the two trailing `if`s. -/
def fuzzyScore (q : String) (e : IndexEntry) : ℚ :=
  if q = "" ∨ e.title_norm = "" then 0
  else
    let s1 := rawScore q e
    let s2 := if s1 < 0 then 0 else s1
    if s2 > 3 / 2 then 3 / 2 else s2

/-- The scoring formula exactly as §4.2 of the spec words it:
`clamp(base + tokenBonus + metaBonus, 0.0, 1.5)`. -/
def clampQ (x lo hi : ℚ) : ℚ := max lo (min x hi)

/-- Spec-side scoring formula (worded from §4.2, for comparison with
the code's `fuzzyScore`). -/
def specScore (q : String) (e : IndexEntry) : ℚ :=
  if q = "" ∨ e.title_norm = "" then 0
  else
    clampQ ((1 : ℚ) - (levenshteinDP q e.title_norm : ℕ) /
        ((max q.length e.title_norm.length : ℕ) : ℚ) +
      (1 / 10) * (overlapCount q e : ℕ) + (1 / 20) * (metaHitsCount q e : ℕ))
      0 (3 / 2)

/-! ## Best-title search (`_fuzzy_find_best_title`, lines 176-205) -/

/-- One iteration of the scan: update on strictly greater score only
(`if score > best_score`), so ties keep the first-seen maximum. -/
def bestStep (q : String) (acc : ℚ × Option String) (e : IndexEntry) :
    ℚ × Option String :=
  if fuzzyScore q e > acc.1 then (fuzzyScore q e, some e.title) else acc

/-- The maximum score over the cache (with the loop's `0.0` seed). -/
def maxScore (q : String) (c : List IndexEntry) : ℚ :=
  c.foldr (fun e m => max (fuzzyScore q e) m) 0

/-- Embedding of `_fuzzy_find_best_title(query)`. The call first runs
`_load_movies_cache()`; a raise there propagates (`Except.error`).
Then: empty cache → `None`; empty normalized query → `None`; otherwise
the linear scan, with the `0.6` acceptance threshold at the end. -/
def fuzzyFindBestTitle (st : CacheSt) (store : Store) (query : String) :
    CacheSt × Except Unit (Option String) :=
  match loadMoviesCache st store with
  | (st', some _) => (st', Except.error ())
  | (st', none) =>
      if st'.cache = [] then (st', Except.ok none)
      else
        let qn := normalize query
        if qn = "" then (st', Except.ok none)
        else
          let best := st'.cache.foldl (bestStep qn) (0, none)
          if best.1 < 3 / 5 then (st', Except.ok none)
          else (st', Except.ok best.2)

/-! ## Catalog query tools with a `limit` parameter (lines 348-456) -/

/-- A Python value passed as the `limit` argument. -/
inductive PyVal where
  | int : Int → PyVal
  | str : String → PyVal
deriving DecidableEq

def digitsToNat (ds : List Char) : Nat :=
  ds.foldl (fun n c => 10 * n + (c.toNat - '0'.toNat)) 0

/-- Python `int(s)` on a string: optional sign then decimal digits
(after stripping surrounding whitespace); anything else raises. -/
def pyIntOfStr (s : String) : Option Int :=
  match (trimStr s).toList with
  | '+' :: ds =>
      if ds ≠ [] ∧ ds.all Char.isDigit then some (digitsToNat ds) else none
  | '-' :: ds =>
      if ds ≠ [] ∧ ds.all Char.isDigit then some (-(digitsToNat ds : Int))
      else none
  | ds =>
      if ds ≠ [] ∧ ds.all Char.isDigit then some (digitsToNat ds) else none

/-- Python `int(limit)`: identity on ints, parse on strings, raise on
failure (modelled as `none`). -/
def pyToInt : PyVal → Option Int
  | PyVal.int n => some n
  | PyVal.str s => pyIntOfStr s

/-- `ORDER BY IMDB_Rating DESC`. -/
def ratingDesc (a b : Row) : Prop := b.rating ≤ a.rating

instance : DecidableRel ratingDesc := fun a b =>
  inferInstanceAs (Decidable (b.rating ≤ a.rating))

instance : IsTotal Row ratingDesc :=
  ⟨fun a b => (le_total b.rating a.rating).imp (fun h => h) (fun h => h)⟩

instance : IsTrans Row ratingDesc :=
  ⟨fun _ _ _ h1 h2 => le_trans h2 h1⟩

def sortByRatingDesc (l : List Row) : List Row := l.insertionSort ratingDesc

/-- `LIMIT n` of SQLite: a negative limit means no limit. -/
def takeLim (n : Int) (l : List Row) : List Row :=
  if n < 0 then l else l.take n.toNat

/-- `lower(COALESCE(col,'')) LIKE '%pat%'` for a wildcard-free pattern. -/
def likeSub (pat s : String) : Bool := strIn pat s.toLower

/-- Result of a Kaggle tool call that did not raise. -/
inductive ToolOut where
  | unavailable : ToolOut
  | rows : List Row → ToolOut
deriving DecidableEq

/-- Embedding of `kaggle_movies_with_actor(actor, limit)` (lines
348-385): unavailable store short-circuits; `int(limit)` raises on a
non-coercible value; otherwise substring-filter on the four cast slots,
sort by rating descending, cap at the limit. -/
def kaggleMoviesWithActor (store : Option (List Row)) (actor : String)
    (lim : PyVal) : Except Unit ToolOut :=
  match store with
  | none => Except.ok ToolOut.unavailable
  | some table =>
      match pyToInt lim with
      | none => Except.error ()
      | some n =>
          Except.ok (ToolOut.rows (takeLim n (sortByRatingDesc
            (table.filter (fun r =>
              likeSub (normalize actor) r.star1 ||
              likeSub (normalize actor) r.star2 ||
              likeSub (normalize actor) r.star3 ||
              likeSub (normalize actor) r.star4)))))

/-- Embedding of `kaggle_top_by_genre(genre, limit)` (lines 388-421). -/
def kaggleTopByGenre (store : Option (List Row)) (genre : String)
    (lim : PyVal) : Except Unit ToolOut :=
  match store with
  | none => Except.ok ToolOut.unavailable
  | some table =>
      match pyToInt lim with
      | none => Except.error ()
      | some n =>
          Except.ok (ToolOut.rows (takeLim n (sortByRatingDesc
            (table.filter (fun r => likeSub (normalize genre) r.genre)))))

/-- Embedding of `kaggle_search_by_keyword(keyword, limit)` (lines
424-456): substring filter on the overview, capped, no sorting. -/
def kaggleSearchByKeyword (store : Option (List Row)) (keyword : String)
    (lim : PyVal) : Except Unit ToolOut :=
  match store with
  | none => Except.ok ToolOut.unavailable
  | some table =>
      match pyToInt lim with
      | none => Except.error ()
      | some n =>
          Except.ok (ToolOut.rows (takeLim n
            (table.filter (fun r => likeSub (normalize keyword) r.overview))))

/-! ## Basic facts about the score -/

theorem string_length_pos {s : String} (h : s ≠ "") : 0 < s.length := by
  cases s with
  | mk data =>
      cases data with
      | nil => exact absurd rfl h
      | cons c cs => simp [String.length]

theorem fuzzyScore_nonneg (q : String) (e : IndexEntry) :
    0 ≤ fuzzyScore q e := by
  simp only [fuzzyScore]
  split_ifs <;> linarith

theorem fuzzyScore_le_cap (q : String) (e : IndexEntry) :
    fuzzyScore q e ≤ 3 / 2 := by
  simp only [fuzzyScore]
  split_ifs <;> linarith

theorem fuzzyScore_empty_query (e : IndexEntry) : fuzzyScore "" e = 0 := by
  simp [fuzzyScore]

theorem rawScore_nonneg (q : String) (e : IndexEntry) (hq : q ≠ "") :
    0 ≤ rawScore q e := by
  unfold rawScore
  have hlen : 0 < q.length := string_length_pos hq
  have hMpos : (0 : ℚ) < ((max q.length e.title_norm.length : ℕ) : ℚ) := by
    have h : 0 < max q.length e.title_norm.length :=
      lt_of_lt_of_le hlen (le_max_left _ _)
    exact_mod_cast h
  have hd : ((levenshteinDP q e.title_norm : ℕ) : ℚ) ≤
      ((max q.length e.title_norm.length : ℕ) : ℚ) :=
    Nat.cast_le.mpr (levenshteinDP_le_max _ _)
  have hdiv : ((levenshteinDP q e.title_norm : ℕ) : ℚ) /
      ((max q.length e.title_norm.length : ℕ) : ℚ) ≤ 1 :=
    (div_le_one hMpos).mpr hd
  have hov : (0 : ℚ) ≤ ((overlapCount q e : ℕ) : ℚ) := Nat.cast_nonneg _
  have hmh : (0 : ℚ) ≤ ((metaHitsCount q e : ℕ) : ℚ) := Nat.cast_nonneg _
  simp only
  linarith

theorem fuzzyScore_mono_raw {q1 q2 : String} {e : IndexEntry}
    (h1 : ¬(q1 = "" ∨ e.title_norm = ""))
    (h2 : ¬(q2 = "" ∨ e.title_norm = ""))
    (hr : rawScore q2 e ≤ rawScore q1 e) :
    fuzzyScore q2 e ≤ fuzzyScore q1 e := by
  simp only [fuzzyScore, if_neg h1, if_neg h2]
  split_ifs <;> linarith

/-! ## Facts about the linear scan of `_fuzzy_find_best_title` -/

theorem maxScore_nil (q : String) : maxScore q [] = 0 := rfl

theorem maxScore_cons (q : String) (e : IndexEntry) (c : List IndexEntry) :
    maxScore q (e :: c) = max (fuzzyScore q e) (maxScore q c) := rfl

theorem maxScore_nonneg (q : String) (c : List IndexEntry) :
    0 ≤ maxScore q c := by
  induction c with
  | nil => exact le_refl 0
  | cons e c ih =>
      rw [maxScore_cons]; exact le_trans ih (le_max_right _ _)

theorem maxScore_empty_query (c : List IndexEntry) : maxScore "" c = 0 := by
  induction c with
  | nil => rfl
  | cons e c ih => rw [maxScore_cons, fuzzyScore_empty_query, ih]; simp

theorem le_maxScore {q : String} {e : IndexEntry} :
    ∀ {c : List IndexEntry}, e ∈ c → fuzzyScore q e ≤ maxScore q c := by
  intro c
  induction c with
  | nil => intro h; exact absurd h (List.not_mem_nil e)
  | cons a c ih =>
      intro h
      rw [maxScore_cons]
      rcases List.mem_cons.mp h with rfl | h'
      · exact le_max_left _ _
      · exact le_trans (ih h') (le_max_right _ _)

theorem maxScore_attained (q : String) :
    ∀ c : List IndexEntry, 0 < maxScore q c →
      ∃ e ∈ c, fuzzyScore q e = maxScore q c := by
  intro c
  induction c with
  | nil => intro h; rw [maxScore_nil] at h; exact absurd h (lt_irrefl 0)
  | cons e c ih =>
      intro h
      rw [maxScore_cons]
      rcases le_total (maxScore q c) (fuzzyScore q e) with hle | hle
      · exact ⟨e, List.mem_cons_self e c, (max_eq_left hle).symm⟩
      · rw [maxScore_cons, max_eq_right hle] at h
        rcases ih h with ⟨x, hx, hxe⟩
        exact ⟨x, List.mem_cons_of_mem e hx, by rw [hxe, max_eq_right hle]⟩

theorem bestStep_pos {q : String} {e : IndexEntry} {b : ℚ} {t : Option String}
    (h : fuzzyScore q e > b) :
    bestStep q (b, t) e = (fuzzyScore q e, some e.title) := by
  simp [bestStep, h]

theorem bestStep_neg {q : String} {e : IndexEntry} {b : ℚ} {t : Option String}
    (h : ¬fuzzyScore q e > b) : bestStep q (b, t) e = (b, t) := by
  simp [bestStep, h]

theorem foldl_bestStep_const (q : String) :
    ∀ (c : List IndexEntry) (b : ℚ) (t : Option String),
      maxScore q c ≤ b → c.foldl (bestStep q) (b, t) = (b, t) := by
  intro c
  induction c with
  | nil => intro b t _; rfl
  | cons e c ih =>
      intro b t h
      rw [maxScore_cons] at h
      rw [List.foldl_cons,
        bestStep_neg (not_lt.mpr (le_trans (le_max_left _ _) h))]
      exact ih b t (le_trans (le_max_right _ _) h)

theorem foldl_bestStep_fst (q : String) :
    ∀ (c : List IndexEntry) (b : ℚ) (t : Option String), 0 ≤ b →
      (c.foldl (bestStep q) (b, t)).1 = max b (maxScore q c) := by
  intro c
  induction c with
  | nil =>
      intro b t hb
      rw [maxScore_nil]
      exact (max_eq_left hb).symm
  | cons e c ih =>
      intro b t hb
      rw [List.foldl_cons, maxScore_cons]
      by_cases h : fuzzyScore q e > b
      · rw [bestStep_pos h, ih _ _ (fuzzyScore_nonneg q e)]
        rw [max_eq_right
          (le_trans h.le (le_max_left (fuzzyScore q e) (maxScore q c)))]
      · rw [bestStep_neg h, ih _ _ hb, ← max_assoc,
          max_eq_left (not_lt.mp h)]

theorem foldl_bestStep_snd (q : String) :
    ∀ (c : List IndexEntry) (b : ℚ) (t : Option String), 0 ≤ b →
      b < maxScore q c →
      (c.foldl (bestStep q) (b, t)).2 =
        (c.find? (fun e => decide (fuzzyScore q e = maxScore q c))).map
          (fun e => e.title) := by
  intro c
  induction c with
  | nil =>
      intro b t hb h
      rw [maxScore_nil] at h
      exact absurd h (not_lt.mpr hb)
  | cons e c ih =>
      intro b t hb h
      rw [List.foldl_cons]
      rw [maxScore_cons] at h ⊢
      by_cases hsb : fuzzyScore q e > b
      · rw [bestStep_pos hsb]
        by_cases hms : maxScore q c ≤ fuzzyScore q e
        · rw [max_eq_left hms, foldl_bestStep_const q c _ _ hms,
            List.find?_cons_of_pos _ (by simp)]
          rfl
        · push_neg at hms
          rw [max_eq_right hms.le,
            List.find?_cons_of_neg _ (by simp [ne_of_lt hms])]
          exact ih (fuzzyScore q e) _ (fuzzyScore_nonneg q e) hms
      · push_neg at hsb
        rw [bestStep_neg (not_lt.mpr hsb)]
        have hM : b < maxScore q c := by
          by_contra hle
          push_neg at hle
          exact absurd h (not_lt.mpr (max_le hsb hle))
        rw [max_eq_right (le_trans hsb hM.le),
          List.find?_cons_of_neg _
            (by simp [ne_of_lt (lt_of_le_of_lt hsb hM)])]
        exact ih b t hb hM

theorem existsFindSome {α : Type} {p : α → Bool} :
    ∀ l : List α, (∃ x ∈ l, p x = true) → ∃ y, l.find? p = some y := by
  intro l
  induction l with
  | nil => rintro ⟨x, hx, _⟩; exact absurd hx (List.not_mem_nil x)
  | cons a l ih =>
      rintro ⟨x, hx, hpx⟩
      by_cases ha : p a = true
      · exact ⟨a, List.find?_cons_of_pos _ ha⟩
      · rw [List.find?_cons_of_neg _ (by simpa using ha)]
        rcases List.mem_cons.mp hx with rfl | hx'
        · exact absurd hpx ha
        · exact ih ⟨x, hx', hpx⟩

instance {ε α : Type} [DecidableEq ε] [DecidableEq α] :
    DecidableEq (Except ε α) := fun a b =>
  match a, b with
  | Except.ok x, Except.ok y =>
      if h : x = y then isTrue (by rw [h])
      else isFalse (fun hh => h (by injection hh))
  | Except.error x, Except.error y =>
      if h : x = y then isTrue (by rw [h])
      else isFalse (fun hh => h (by injection hh))
  | Except.ok _, Except.error _ => isFalse (fun hh => Except.noConfusion hh)
  | Except.error _, Except.ok _ => isFalse (fun hh => Except.noConfusion hh)

/-- Full characterization of `_fuzzy_find_best_title` on a loaded cache:
the result is the title of the first entry attaining the maximum score
when that maximum reaches `0.6`, and absent otherwise. -/
theorem findBest_char (st : CacheSt) (store : Store) (query : String)
    (hl : st.loaded = true) :
    (fuzzyFindBestTitle st store query).2 =
      Except.ok (if 3 / 5 ≤ maxScore (normalize query) st.cache
        then (st.cache.find? (fun e =>
            decide (fuzzyScore (normalize query) e =
              maxScore (normalize query) st.cache))).map (fun e => e.title)
        else none) := by
  have hload : loadMoviesCache st store = (st, none) := by
    simp [loadMoviesCache, hl]
  unfold fuzzyFindBestTitle
  rw [hload]
  dsimp only
  by_cases hc : st.cache = []
  · rw [if_pos hc, hc, maxScore_nil,
      if_neg (by norm_num : ¬(3 / 5 : ℚ) ≤ 0)]
  · rw [if_neg hc]
    by_cases hq : normalize query = ""
    · rw [if_pos hq, hq, maxScore_empty_query,
        if_neg (by norm_num : ¬(3 / 5 : ℚ) ≤ 0)]
    · rw [if_neg hq]
      have hfst : (st.cache.foldl (bestStep (normalize query)) (0, none)).1 =
          maxScore (normalize query) st.cache := by
        rw [foldl_bestStep_fst _ _ _ _ le_rfl,
          max_eq_right (maxScore_nonneg _ _)]
      by_cases hM : 3 / 5 ≤ maxScore (normalize query) st.cache
      · have hlt : ¬(st.cache.foldl (bestStep (normalize query))
            (0, none)).1 < 3 / 5 := by rw [hfst]; exact not_lt.mpr hM
        rw [if_neg hlt, if_pos hM]
        have h0M : (0 : ℚ) < maxScore (normalize query) st.cache :=
          lt_of_lt_of_le (by norm_num) hM
        exact congrArg Except.ok
          (foldl_bestStep_snd (normalize query) st.cache 0 none le_rfl h0M)
      · have hlt : (st.cache.foldl (bestStep (normalize query))
            (0, none)).1 < 3 / 5 := by rw [hfst]; exact not_le.mp hM
        rw [if_pos hlt, if_neg hM]

/-! ## Concrete rows used in witnesses and counterexamples -/

def rowA : Row := ⟨"Aa Bb Cc Dd", "", "", 0, "", "", "", "", "", ""⟩

def rowB : Row := ⟨"Aa Bb Cc Dd Z", "", "", 0, "", "", "", "", "", "aa bb cc dd"⟩

def rowC : Row := ⟨"ABCDE FGHIJ", "", "", 0, "", "", "", "", "", "abcdq fg hiq"⟩

/-! ## Facts about the three limit-taking tools -/

theorem actorTool_ok (table : List Row) (actor : String) {lim : PyVal}
    {n : Int} (h : pyToInt lim = some n) :
    kaggleMoviesWithActor (some table) actor lim =
      Except.ok (ToolOut.rows (takeLim n (sortByRatingDesc (table.filter
        (fun r =>
          likeSub (normalize actor) r.star1 ||
          likeSub (normalize actor) r.star2 ||
          likeSub (normalize actor) r.star3 ||
          likeSub (normalize actor) r.star4))))) := by
  unfold kaggleMoviesWithActor
  rw [h]

theorem actorTool_err (table : List Row) (actor : String) {lim : PyVal}
    (h : pyToInt lim = none) :
    kaggleMoviesWithActor (some table) actor lim = Except.error () := by
  unfold kaggleMoviesWithActor
  rw [h]

theorem genreTool_ok (table : List Row) (genre : String) {lim : PyVal}
    {n : Int} (h : pyToInt lim = some n) :
    kaggleTopByGenre (some table) genre lim =
      Except.ok (ToolOut.rows (takeLim n (sortByRatingDesc (table.filter
        (fun r => likeSub (normalize genre) r.genre))))) := by
  unfold kaggleTopByGenre
  rw [h]

theorem genreTool_err (table : List Row) (genre : String) {lim : PyVal}
    (h : pyToInt lim = none) :
    kaggleTopByGenre (some table) genre lim = Except.error () := by
  unfold kaggleTopByGenre
  rw [h]

theorem keywordTool_ok (table : List Row) (keyword : String) {lim : PyVal}
    {n : Int} (h : pyToInt lim = some n) :
    kaggleSearchByKeyword (some table) keyword lim =
      Except.ok (ToolOut.rows (takeLim n (table.filter
        (fun r => likeSub (normalize keyword) r.overview)))) := by
  unfold kaggleSearchByKeyword
  rw [h]

theorem keywordTool_err (table : List Row) (keyword : String) {lim : PyVal}
    (h : pyToInt lim = none) :
    kaggleSearchByKeyword (some table) keyword lim = Except.error () := by
  unfold kaggleSearchByKeyword
  rw [h]

theorem takeLim_three_length (l : List Row) : (takeLim 3 l).length ≤ 3 := by
  rw [takeLim, if_neg (by norm_num : ¬(3 : Int) < 0)]
  have h : (3 : Int).toNat = 3 := rfl
  rw [h]
  exact List.length_take_le 3 l

theorem takeLim_sorted (n : Int) (l : List Row) :
    List.Sorted ratingDesc (takeLim n (sortByRatingDesc l)) := by
  have hs : List.Sorted ratingDesc (sortByRatingDesc l) :=
    List.sorted_insertionSort ratingDesc l
  rw [takeLim]
  split_ifs
  · exact hs
  · exact List.Pairwise.sublist (List.take_sublist _ _) hs

/-! ## The claims -/

/-- Claim C1: `_fuzzy_find_best_title` scans every index entry in build
order, tracking the maximum score and keeping the first-seen entry on
ties, and returns that entry's original title exactly when the maximum
score is at least `0.6`; when the maximum is below `0.6` the result is
absent. -/
theorem c1_best_title_threshold (st : CacheSt) (store : Store)
    (query : String) (hl : st.loaded = true) :
    (fuzzyFindBestTitle st store query).2 =
      Except.ok (if 3 / 5 ≤ maxScore (normalize query) st.cache
        then (st.cache.find? (fun e =>
            decide (fuzzyScore (normalize query) e =
              maxScore (normalize query) st.cache))).map (fun e => e.title)
        else none) :=
  findBest_char st store query hl

/-- Witness for C1 at a concrete loaded state. -/
theorem c1_best_title_threshold_witness :
    (⟨buildCache [rowA], true⟩ : CacheSt).loaded = true ∧
      (fuzzyFindBestTitle ⟨buildCache [rowA], true⟩ Store.absent
          "aa bb cc dd").2 =
        Except.ok (if 3 / 5 ≤ maxScore (normalize "aa bb cc dd")
            (⟨buildCache [rowA], true⟩ : CacheSt).cache
          then ((⟨buildCache [rowA], true⟩ : CacheSt).cache.find? (fun e =>
              decide (fuzzyScore (normalize "aa bb cc dd") e =
                maxScore (normalize "aa bb cc dd")
                  (⟨buildCache [rowA], true⟩ : CacheSt).cache))).map
            (fun e => e.title)
          else none) :=
  ⟨rfl, c1_best_title_threshold ⟨buildCache [rowA], true⟩ Store.absent
    "aa bb cc dd" rfl⟩

/-- Claim C2: for every normalized query and index entry, the score is
`0` when the query or the normalized title is empty, and otherwise
equals `clamp(1 - lev/maxLen + 0.1·overlap + 0.05·metaHits, 0.0, 1.5)`
with whitespace token sets and substring meta hits. -/
theorem c2_score_formula (q : String) (e : IndexEntry) :
    fuzzyScore q e = specScore q e := by
  by_cases h : q = "" ∨ e.title_norm = ""
  · simp only [fuzzyScore, specScore, if_pos h]
  · simp only [fuzzyScore, specScore, if_neg h]
    show (if (if rawScore q e < 0 then (0 : ℚ) else rawScore q e) > 3 / 2
        then 3 / 2
        else if rawScore q e < 0 then (0 : ℚ) else rawScore q e) =
      clampQ (rawScore q e) 0 (3 / 2)
    unfold clampQ
    by_cases h1 : rawScore q e < 0
    · rw [if_pos h1, if_neg (by norm_num : ¬(0 : ℚ) > 3 / 2),
        min_eq_left (by linarith : rawScore q e ≤ 3 / 2),
        max_eq_left h1.le]
    · rw [if_neg h1]
      by_cases h2 : rawScore q e > 3 / 2
      · rw [if_pos h2, min_eq_right h2.le,
          max_eq_right (by norm_num : (0 : ℚ) ≤ 3 / 2)]
      · rw [if_neg h2, min_eq_left (not_lt.mp h2),
          max_eq_right (not_lt.mp h1)]

/-- Claim C5: the Levenshtein implementation satisfies
`lev(a,a) = 0`, `lev("",a) = lev(a,"") = len(a)`, and symmetry. -/
theorem c5_levenshtein_props :
    (∀ a : String, levenshteinDP a a = 0) ∧
      (∀ a : String, levenshteinDP "" a = a.length) ∧
      (∀ a : String, levenshteinDP a "" = a.length) ∧
      (∀ a b : String, levenshteinDP a b = levenshteinDP b a) :=
  ⟨levenshteinDP_self, levenshteinDP_empty_left, levenshteinDP_empty_right,
    levenshteinDP_comm⟩

/-- Claim C8: the index build is idempotent — running the load step a
second time leaves the cached state (entries and flag) exactly as after
the first run, for every starting state and store condition. -/
theorem c8_load_idempotent (st : CacheSt) (store : Store) :
    (loadMoviesCache (loadMoviesCache st store).1 store).1 =
      (loadMoviesCache st store).1 := by
  by_cases h : st.loaded = true
  · simp [loadMoviesCache, h]
  · cases store <;> simp [loadMoviesCache, h]

/-- Claim C9: every tool taking a `limit` (actor filter, genre top-N,
keyword search) coerces it with `int(...)` before use: the coercible
string `"3"` succeeds with at most 3 rows (rating-descending for the
actor filter), while `"abc"` raises a caller-input failure. -/
theorem c9_limit_coercion (table : List Row)
    (actor genre keyword : String) :
    (∃ rs, kaggleMoviesWithActor (some table) actor (PyVal.str "3") =
        Except.ok (ToolOut.rows rs) ∧ rs.length ≤ 3 ∧
        List.Sorted ratingDesc rs) ∧
      kaggleMoviesWithActor (some table) actor (PyVal.str "abc") =
        Except.error () ∧
      (∃ rs, kaggleTopByGenre (some table) genre (PyVal.str "3") =
        Except.ok (ToolOut.rows rs) ∧ rs.length ≤ 3) ∧
      kaggleTopByGenre (some table) genre (PyVal.str "abc") =
        Except.error () ∧
      (∃ rs, kaggleSearchByKeyword (some table) keyword (PyVal.str "3") =
        Except.ok (ToolOut.rows rs) ∧ rs.length ≤ 3) ∧
      kaggleSearchByKeyword (some table) keyword (PyVal.str "abc") =
        Except.error () := by
  have h3 : pyToInt (PyVal.str "3") = some 3 := by decide
  have habc : pyToInt (PyVal.str "abc") = none := by decide
  exact ⟨⟨_, actorTool_ok table actor h3, takeLim_three_length _,
      takeLim_sorted _ _⟩,
    actorTool_err table actor habc,
    ⟨_, genreTool_ok table genre h3, takeLim_three_length _⟩,
    genreTool_err table genre habc,
    ⟨_, keywordTool_ok table keyword h3, takeLim_three_length _⟩,
    keywordTool_err table keyword habc⟩

/-- Claim C10: every fuzzy score lies in `[0, 1.5]`; the Levenshtein
distance never exceeds `max(len(q), len(t))`, so on nonempty inputs the
raw (pre-clamp) score is already non-negative and the lower clamp
branch cannot fire. -/
theorem c10_score_range (q : String) (e : IndexEntry) :
    (0 ≤ fuzzyScore q e ∧ fuzzyScore q e ≤ 3 / 2) ∧
      levenshteinDP q e.title_norm ≤ max q.length e.title_norm.length ∧
      (q ≠ "" → e.title_norm ≠ "" → 0 ≤ rawScore q e) :=
  ⟨⟨fuzzyScore_nonneg q e, fuzzyScore_le_cap q e⟩,
    levenshteinDP_le_max _ _, fun hq _ => rawScore_nonneg q e hq⟩

/-- Evaluation helper: the raw score from its integer components. -/
theorem rawScore_eval (q : String) (e : IndexEntry) (d la lb ov mh : ℕ)
    (hd : levenshteinDP q e.title_norm = d) (hla : q.length = la)
    (hlb : e.title_norm.length = lb) (hov : overlapCount q e = ov)
    (hmh : metaHitsCount q e = mh) :
    rawScore q e = 1 - (d : ℚ) / ((max la lb : ℕ) : ℚ) +
      (1 / 10) * (ov : ℚ) + (1 / 20) * (mh : ℚ) := by
  simp only [rawScore, hd, hla, hlb, hov, hmh]

/-- Evaluation helper: no clamp fires when the raw score is in range. -/
theorem fuzzyScore_eval (q : String) (e : IndexEntry)
    (hne : ¬(q = "" ∨ e.title_norm = ""))
    (h0 : ¬rawScore q e < 0) (h2 : ¬rawScore q e > 3 / 2) :
    fuzzyScore q e = rawScore q e := by
  simp only [fuzzyScore, if_neg hne, if_neg h0, if_neg h2]

/-- Claim C3 is refuted: the query `"aa bb cc dd"` exactly equals the
normalized title of the first cache entry, yet the best-title search
returns the other entry's title `"Aa Bb Cc Dd Z"` (its meta bonuses
outscore the exact match, `94/65 > 7/5`). -/
theorem c3_counterexample :
    normalize "aa bb cc dd" = (mkEntry rowA).title_norm ∧
      mkEntry rowA ∈ buildCache [rowA, rowB] ∧
      (fuzzyFindBestTitle ⟨buildCache [rowA, rowB], true⟩ Store.absent
          "aa bb cc dd").2 = Except.ok (some "Aa Bb Cc Dd Z") ∧
      (mkEntry rowA).title ≠ "Aa Bb Cc Dd Z" := by
  refine ⟨by decide, by decide, ?_, by decide⟩
  have hqn : normalize "aa bb cc dd" = "aa bb cc dd" := by decide
  have hr1 : rawScore "aa bb cc dd" (mkEntry rowA) = 7 / 5 := by
    rw [rawScore_eval "aa bb cc dd" (mkEntry rowA) 0 11 11 4 0
      (by decide) (by decide) (by decide) (by decide) (by decide)]
    norm_num
  have hs1 : fuzzyScore "aa bb cc dd" (mkEntry rowA) = 7 / 5 := by
    rw [fuzzyScore_eval _ _ (by decide) (by rw [hr1]; norm_num)
      (by rw [hr1]; norm_num), hr1]
  have hr2 : rawScore "aa bb cc dd" (mkEntry rowB) = 94 / 65 := by
    rw [rawScore_eval "aa bb cc dd" (mkEntry rowB) 2 11 13 4 4
      (by decide) (by decide) (by decide) (by decide) (by decide)]
    norm_num
  have hs2 : fuzzyScore "aa bb cc dd" (mkEntry rowB) = 94 / 65 := by
    rw [fuzzyScore_eval _ _ (by decide) (by rw [hr2]; norm_num)
      (by rw [hr2]; norm_num), hr2]
  have hstep1 : bestStep "aa bb cc dd" (0, none) (mkEntry rowA) =
      ((7 / 5 : ℚ), some "Aa Bb Cc Dd") := by
    rw [bestStep_pos (show fuzzyScore "aa bb cc dd" (mkEntry rowA) > (0 : ℚ)
      by rw [hs1]; norm_num), hs1]
    rfl
  have hstep2 : bestStep "aa bb cc dd" ((7 / 5 : ℚ), some "Aa Bb Cc Dd")
      (mkEntry rowB) = ((94 / 65 : ℚ), some "Aa Bb Cc Dd Z") := by
    rw [bestStep_pos (show fuzzyScore "aa bb cc dd" (mkEntry rowB) >
      (7 / 5 : ℚ) by rw [hs2]; norm_num), hs2]
    rfl
  have hfold : List.foldl (bestStep "aa bb cc dd") (0, none)
      (buildCache [rowA, rowB]) =
      ((94 / 65 : ℚ), some "Aa Bb Cc Dd Z") := by
    show List.foldl (bestStep "aa bb cc dd") (0, none)
      [mkEntry rowA, mkEntry rowB] = _
    rw [List.foldl_cons, hstep1, List.foldl_cons, hstep2, List.foldl_nil]
  unfold fuzzyFindBestTitle
  rw [show loadMoviesCache ⟨buildCache [rowA, rowB], true⟩ Store.absent =
    (⟨buildCache [rowA, rowB], true⟩, none) from rfl]
  dsimp only
  rw [if_neg (by decide : ¬buildCache [rowA, rowB] = []), hqn,
    if_neg (by decide : ¬("aa bb cc dd" : String) = ""), hfold,
    if_neg (by norm_num : ¬((94 / 65 : ℚ), some "Aa Bb Cc Dd Z").1 < 3 / 5)]

/-- Claim C3 (amended): for a loaded cache, if the normalized query
exactly equals the nonempty normalized title of some entry, that
entry's score is at least `1.0 ≥ 0.6`, so the search always returns
some title (never absent) — though the returned title is that of the
first maximum-scoring entry, which may differ from the exact match. -/
theorem c3_exact_match_amended (st : CacheSt) (store : Store) (q : String)
    (e : IndexEntry) (hl : st.loaded = true) (he : e ∈ st.cache)
    (hq : normalize q = e.title_norm) (hne : e.title_norm ≠ "") :
    1 ≤ fuzzyScore (normalize q) e ∧
      ∃ t, (fuzzyFindBestTitle st store q).2 = Except.ok (some t) := by
  have hsc : 1 ≤ fuzzyScore (normalize q) e := by
    have hraw : 1 ≤ rawScore (normalize q) e := by
      rw [hq]
      have hov : (0 : ℚ) ≤ ((overlapCount e.title_norm e : ℕ) : ℚ) :=
        Nat.cast_nonneg _
      have hmh : (0 : ℚ) ≤ ((metaHitsCount e.title_norm e : ℕ) : ℚ) :=
        Nat.cast_nonneg _
      simp only [rawScore, levenshteinDP_self, Nat.cast_zero, zero_div]
      linarith
    have hne' : ¬(normalize q = "" ∨ e.title_norm = "") := by
      rw [hq]; simp [hne]
    simp only [fuzzyScore, if_neg hne']
    split_ifs <;> linarith
  refine ⟨hsc, ?_⟩
  have hle : fuzzyScore (normalize q) e ≤ maxScore (normalize q) st.cache :=
    le_maxScore he
  have hM : 3 / 5 ≤ maxScore (normalize q) st.cache := by linarith
  have h0 : (0 : ℚ) < maxScore (normalize q) st.cache := by linarith
  rcases maxScore_attained (normalize q) st.cache h0 with ⟨x, hx, hxe⟩
  rcases @existsFindSome IndexEntry
      (fun y => decide (fuzzyScore (normalize q) y =
        maxScore (normalize q) st.cache)) st.cache
      ⟨x, hx, by simp [hxe]⟩ with ⟨y, hy⟩
  refine ⟨y.title, ?_⟩
  rw [findBest_char st store q hl, if_pos hM, hy]
  rfl

/-- Witness for the amended C3 at a concrete one-entry cache. -/
theorem c3_exact_match_amended_witness :
    (⟨buildCache [rowA], true⟩ : CacheSt).loaded = true ∧
      mkEntry rowA ∈ (⟨buildCache [rowA], true⟩ : CacheSt).cache ∧
      normalize "aa bb cc dd" = (mkEntry rowA).title_norm ∧
      (mkEntry rowA).title_norm ≠ "" ∧
      (1 ≤ fuzzyScore (normalize "aa bb cc dd") (mkEntry rowA) ∧
        ∃ t, (fuzzyFindBestTitle ⟨buildCache [rowA], true⟩ Store.absent
            "aa bb cc dd").2 = Except.ok (some t)) :=
  ⟨rfl, by decide, by decide, by decide,
    c3_exact_match_amended ⟨buildCache [rowA], true⟩ Store.absent
      "aa bb cc dd" (mkEntry rowA) rfl (by decide) (by decide) (by decide)⟩

/-- Claim C4 is refuted in its "no index work" part: a blank query on
an unloaded state still triggers the cache build — the state after the
call is loaded and non-empty, not the untouched initial state. -/
theorem c4_counterexample :
    (fuzzyFindBestTitle ⟨[], false⟩ (Store.avail [rowA]) "  ").2 =
        Except.ok none ∧
      (fuzzyFindBestTitle ⟨[], false⟩ (Store.avail [rowA]) "  ").1 =
        (⟨buildCache [rowA], true⟩ : CacheSt) ∧
      (⟨buildCache [rowA], true⟩ : CacheSt) ≠ ⟨[], false⟩ := by
  exact ⟨by decide, by decide, by decide⟩

/-- Claim C4 (amended): on an empty-after-normalization query the
result is absent whenever the load step does not raise, regardless of
index contents — but the call still performs the lazy load first (the
resulting state is exactly the post-load state, so the index may get
built), and a raising load propagates its error instead. -/
theorem c4_empty_query_amended (st : CacheSt) (store : Store) (q : String)
    (hq : normalize q = "") :
    (fuzzyFindBestTitle st store q).1 = (loadMoviesCache st store).1 ∧
      (∀ r, (fuzzyFindBestTitle st store q).2 = Except.ok r → r = none) ∧
      ((fuzzyFindBestTitle st store q).2 = Except.error () ↔
        (loadMoviesCache st store).2 = some ()) := by
  unfold fuzzyFindBestTitle
  rcases hld : loadMoviesCache st store with ⟨st', err⟩
  cases err with
  | some u =>
      cases u
      exact ⟨rfl, fun r hr => Except.noConfusion hr, by simp⟩
  | none =>
      dsimp only
      by_cases hc : st'.cache = []
      · rw [if_pos hc]
        exact ⟨rfl, fun r hr => by injection hr with h; exact h.symm,
          by simp⟩
      · rw [if_neg hc, if_pos hq]
        exact ⟨rfl, fun r hr => by injection hr with h; exact h.symm,
          by simp⟩

/-- Witness for the amended C4 at a concrete blank query. -/
theorem c4_empty_query_amended_witness :
    normalize "  " = "" ∧
      ((fuzzyFindBestTitle ⟨[], true⟩ Store.absent "  ").1 =
          (loadMoviesCache ⟨[], true⟩ Store.absent).1 ∧
        (∀ r, (fuzzyFindBestTitle ⟨[], true⟩ Store.absent "  ").2 =
          Except.ok r → r = none) ∧
        ((fuzzyFindBestTitle ⟨[], true⟩ Store.absent "  ").2 =
            Except.error () ↔
          (loadMoviesCache ⟨[], true⟩ Store.absent).2 = some ())) :=
  ⟨by decide, c4_empty_query_amended ⟨[], true⟩ Store.absent "  "
    (by decide)⟩

/-- Claim C6 is refuted: against the entry built from `rowC`, the two
queries have equal edit distance (3) and equal maximum length (12), the
first shares one token with the title and the second none, yet the
first scores `17/20` and the second `9/10` — strictly more. -/
theorem c6_counterexample :
    levenshteinDP "abcde fqhiqq" (mkEntry rowC).title_norm =
        levenshteinDP "abcdq fg hiq" (mkEntry rowC).title_norm ∧
      max (String.length "abcde fqhiqq") (mkEntry rowC).title_norm.length =
        max (String.length "abcdq fg hiq")
          (mkEntry rowC).title_norm.length ∧
      overlapCount "abcdq fg hiq" (mkEntry rowC) <
        overlapCount "abcde fqhiqq" (mkEntry rowC) ∧
      fuzzyScore "abcde fqhiqq" (mkEntry rowC) <
        fuzzyScore "abcdq fg hiq" (mkEntry rowC) := by
  refine ⟨by decide, by decide, by decide, ?_⟩
  have hr1 : rawScore "abcde fqhiqq" (mkEntry rowC) = 17 / 20 := by
    rw [rawScore_eval "abcde fqhiqq" (mkEntry rowC) 3 12 11 1 0
      (by decide) (by decide) (by decide) (by decide) (by decide)]
    norm_num
  have hr2 : rawScore "abcdq fg hiq" (mkEntry rowC) = 9 / 10 := by
    rw [rawScore_eval "abcdq fg hiq" (mkEntry rowC) 3 12 11 0 3
      (by decide) (by decide) (by decide) (by decide) (by decide)]
    norm_num
  rw [fuzzyScore_eval _ _ (by decide) (by rw [hr1]; norm_num)
      (by rw [hr1]; norm_num), hr1,
    fuzzyScore_eval _ _ (by decide) (by rw [hr2]; norm_num)
      (by rw [hr2]; norm_num), hr2]
  norm_num

/-- Claim C6 (amended): with identical edit distance, identical maximum
length AND identical meta-hit count against a fixed entry, a nonempty
query sharing more whitespace tokens with the title never scores lower. -/
theorem c6_token_overlap_mono (e : IndexEntry) (q1 q2 : String)
    (hq1 : q1 ≠ "") (hq2 : q2 ≠ "")
    (hd : levenshteinDP q1 e.title_norm = levenshteinDP q2 e.title_norm)
    (hm : max q1.length e.title_norm.length =
      max q2.length e.title_norm.length)
    (hmh : metaHitsCount q1 e = metaHitsCount q2 e)
    (hov : overlapCount q2 e ≤ overlapCount q1 e) :
    fuzzyScore q2 e ≤ fuzzyScore q1 e := by
  by_cases ht : e.title_norm = ""
  · simp [fuzzyScore, ht]
  · have hraw : rawScore q2 e ≤ rawScore q1 e := by
      have hcast : ((overlapCount q2 e : ℕ) : ℚ) ≤
          ((overlapCount q1 e : ℕ) : ℚ) := Nat.cast_le.mpr hov
      simp only [rawScore, hd, hm, hmh]
      linarith
    exact fuzzyScore_mono_raw (by simp [hq1, ht]) (by simp [hq2, ht]) hraw

/-- Witness for the amended C6 at a concrete entry and query pair. -/
theorem c6_token_overlap_mono_witness :
    ("ab" : String) ≠ "" ∧
      levenshteinDP "ab" (mkEntry rowA).title_norm =
        levenshteinDP "ab" (mkEntry rowA).title_norm ∧
      max (String.length "ab") (mkEntry rowA).title_norm.length =
        max (String.length "ab") (mkEntry rowA).title_norm.length ∧
      metaHitsCount "ab" (mkEntry rowA) = metaHitsCount "ab" (mkEntry rowA) ∧
      overlapCount "ab" (mkEntry rowA) ≤ overlapCount "ab" (mkEntry rowA) ∧
      fuzzyScore "ab" (mkEntry rowA) ≤ fuzzyScore "ab" (mkEntry rowA) :=
  ⟨by decide, rfl, rfl, rfl, le_refl _,
    c6_token_overlap_mono (mkEntry rowA) "ab" "ab" (by decide) (by decide)
      rfl rfl rfl (le_refl _)⟩

/-- Claim C7 is refuted in its "no error surfaced" part: when the
catalog file exists but the table query fails, the load step propagates
the error to its caller (while leaving the cache empty and unloaded). -/
theorem c7_counterexample :
    loadMoviesCache ⟨[], false⟩ Store.failing = (⟨[], false⟩, some ()) ∧
      (some () : Option Unit) ≠ none :=
  ⟨rfl, by decide⟩

/-- Claim C7 (amended): starting from the initial state, the load is
all-or-nothing — the cache ends empty or holds the entries of every
row, never a proper partial load; an absent catalog file is handled
locally as an empty loaded index with no error; but a failing table
query propagates its error to the caller, leaving the state untouched. -/
theorem c7_all_or_nothing_amended (st : CacheSt) (store : Store)
    (hl : st.loaded = false) (hc : st.cache = []) :
    ((loadMoviesCache st store).1.cache = [] ∨
        ∃ rows, store = Store.avail rows ∧
          (loadMoviesCache st store).1.cache = buildCache rows) ∧
      (store = Store.failing → loadMoviesCache st store = (st, some ())) ∧
      (store = Store.absent →
        loadMoviesCache st store = (⟨[], true⟩, none)) ∧
      (∀ rows, store = Store.avail rows →
        loadMoviesCache st store = (⟨buildCache rows, true⟩, none)) := by
  have hl' : ¬st.loaded = true := by rw [hl]; exact Bool.false_ne_true
  cases store with
  | absent =>
      refine ⟨Or.inl ?_, ?_, ?_, ?_⟩
      · simp [loadMoviesCache, hl']
      · intro h; exact Store.noConfusion h
      · intro _; simp [loadMoviesCache, hl']
      · intro rows h; exact Store.noConfusion h
  | failing =>
      refine ⟨Or.inl ?_, ?_, ?_, ?_⟩
      · simp [loadMoviesCache, hl', hc]
      · intro _; simp [loadMoviesCache, hl']
      · intro h; exact Store.noConfusion h
      · intro rows h; exact Store.noConfusion h
  | avail rows =>
      refine ⟨Or.inr ⟨rows, rfl, ?_⟩, ?_, ?_, ?_⟩
      · simp [loadMoviesCache, hl']
      · intro h; exact Store.noConfusion h
      · intro h; exact Store.noConfusion h
      · intro rows' h
        injection h with h'
        subst h'
        simp [loadMoviesCache, hl']

/-- Witness for the amended C7 at the initial state and a failing store. -/
theorem c7_all_or_nothing_amended_witness :
    (⟨[], false⟩ : CacheSt).loaded = false ∧
      (⟨[], false⟩ : CacheSt).cache = [] ∧
      (((loadMoviesCache ⟨[], false⟩ Store.failing).1.cache = [] ∨
          ∃ rows, Store.failing = Store.avail rows ∧
            (loadMoviesCache ⟨[], false⟩ Store.failing).1.cache =
              buildCache rows) ∧
        (Store.failing = Store.failing →
          loadMoviesCache ⟨[], false⟩ Store.failing =
            (⟨[], false⟩, some ())) ∧
        (Store.failing = Store.absent →
          loadMoviesCache ⟨[], false⟩ Store.failing = (⟨[], true⟩, none)) ∧
        (∀ rows, Store.failing = Store.avail rows →
          loadMoviesCache ⟨[], false⟩ Store.failing =
            (⟨buildCache rows, true⟩, none))) :=
  ⟨rfl, rfl, c7_all_or_nothing_amended ⟨[], false⟩ Store.failing rfl rfl⟩

/-- Witness for C10 at a concrete nonempty query and entry. -/
theorem c10_score_range_witness :
    (0 ≤ fuzzyScore "ab" (mkEntry rowA) ∧
        fuzzyScore "ab" (mkEntry rowA) ≤ 3 / 2) ∧
      levenshteinDP "ab" (mkEntry rowA).title_norm ≤
        max (String.length "ab") (mkEntry rowA).title_norm.length ∧
      0 ≤ rawScore "ab" (mkEntry rowA) :=
  ⟨(c10_score_range "ab" (mkEntry rowA)).1,
    (c10_score_range "ab" (mkEntry rowA)).2.1,
    (c10_score_range "ab" (mkEntry rowA)).2.2 (by decide) (by decide)⟩

end MovieAgent
